import Mathlib

/-!
Verification development for the Unpadded RPC runtime.

The definitions below are a shallow embedding of the C++ sources:

* `src/include/upd/storage/unaligned_data.hpp` — byte-order codec
  (`write_with_endianess` / `interpret_with_endianess`);
* `src/include/upd/serialization.hpp` — `read_as` / `write_as` for unsigned
  integers, signed integers, and bounded arrays;
* `src/include/upd/storage/tuple.hpp` — unaligned tuple storage with
  compile-time offsets;
* `src/include/upd/dispatcher.hpp` and `src/include/upd/action.hpp` — the
  plain dispatcher and the action invocation path;
* `src/include/upd/buffered_undispatcher.hpp` — the byte-at-a-time buffered
  dispatcher state machine (`put`, `get`, `is_loaded`, `write_to`, `reply`)
  and the buffer-sizing metafunctions;
* `src/include/k2o/buffered_dispatcher.hpp` — the older sibling
  implementation of the buffered state machine (`read`).

Bytes are modelled as `Nat` (values produced by the code are always `< 256`
because every stored byte comes from a `&&& 255`); machine `size_t`
arithmetic is modelled as `Nat` with an explicit `% 2 ^ 64` where the source
relies on unsigned wrap-around (`--m_load_count`).
-/

namespace Unpadded

/-- Byte order selector, from `upd/format.hpp` (`upd::endianess`). -/
inductive endianess
  | LITTLE
  | BIG
deriving DecidableEq

/-- Signed-integer representation selector, from `upd/format.hpp`
(`upd::signed_mode`). -/
inductive signed_mode
  | ONES_COMPLEMENT
  | TWOS_COMPLEMENT
deriving DecidableEq

/-- Little-endian serialization loop of `unaligned_data::write_with_endianess`
(case `endianess::LITTLE`): for each of `n` iterations emit `x &&& 0xff` and
shift `x` right by 8. -/
def writeLittle : Nat → Nat → List Nat
  | _, 0 => []
  | x, n + 1 => (x &&& 255) :: writeLittle (x >>> 8) n

/-- Big-endian serialization loop of `unaligned_data::write_with_endianess`
(case `endianess::BIG`): the same byte stream written at mirrored positions
`offset + (n - i - 1)`, i.e. the little-endian bytes in reverse order. -/
def writeBig : Nat → Nat → List Nat
  | _, 0 => []
  | x, n + 1 => writeBig (x >>> 8) n ++ [x &&& 255]

/-- `unaligned_data::write_with_endianess`: serialize `x` on `n` bytes. -/
def write_with_endianess (e : endianess) (x n : Nat) : List Nat :=
  match e with
  | .LITTLE => writeLittle x n
  | .BIG => writeBig x n

/-- Little-endian deserialization loop of
`unaligned_data::interpret_with_endianess` (case `endianess::LITTLE`):
`retval |= byte_i << (8 * i)`. -/
def interpretLittle : List Nat → Nat
  | [] => 0
  | b :: bs => b ||| (interpretLittle bs <<< 8)

/-- Big-endian deserialization loop of
`unaligned_data::interpret_with_endianess` (case `endianess::BIG`):
byte at position `n - i - 1` contributes at shift `8 * i`. -/
def interpretBig : List Nat → Nat
  | [] => 0
  | b :: bs => (b <<< (8 * bs.length)) ||| interpretBig bs

/-- `unaligned_data::interpret_with_endianess`: deserialize a byte list. -/
def interpret_with_endianess (e : endianess) (bs : List Nat) : Nat :=
  match e with
  | .LITTLE => interpretLittle bs
  | .BIG => interpretBig bs

theorem length_writeLittle (x n : Nat) : (writeLittle x n).length = n := by
  induction n generalizing x with
  | zero => rfl
  | succ n ih => simp [writeLittle, ih]

theorem length_writeBig (x n : Nat) : (writeBig x n).length = n := by
  induction n generalizing x with
  | zero => rfl
  | succ n ih => simp [writeBig, ih]

theorem length_write_with_endianess (e : endianess) (x n : Nat) :
    (write_with_endianess e x n).length = n := by
  cases e <;> simp [write_with_endianess, length_writeLittle, length_writeBig]

theorem lor_shiftLeft_eight {a : Nat} (b : Nat) (h : a < 256) :
    a ||| (b <<< 8) = a + 256 * b := by
  have h2 : (2 : Nat) ^ 8 = 256 := by norm_num
  calc a ||| (b <<< 8) = (b <<< 8) ||| a := Nat.lor_comm _ _
    _ = 2 ^ 8 * b ||| a := by rw [Nat.shiftLeft_eq, Nat.mul_comm, h2]
    _ = 2 ^ 8 * b + a := (Nat.mul_add_lt_is_or (h2 ▸ h) b).symm
    _ = a + 256 * b := by rw [h2]; omega

theorem writeBig_eq_reverse (x n : Nat) :
    writeBig x n = (writeLittle x n).reverse := by
  induction n generalizing x with
  | zero => rfl
  | succ n ih => simp [writeBig, writeLittle, ih]

theorem shiftLeft_lor_distrib (a b n : Nat) :
    (a ||| b) <<< n = (a <<< n) ||| (b <<< n) := by
  apply Nat.eq_of_testBit_eq
  intro j
  simp [Bool.and_or_distrib_left]

theorem interpretLittle_append_singleton (l : List Nat) (b : Nat) :
    interpretLittle (l ++ [b]) = interpretLittle l ||| (b <<< (8 * l.length)) := by
  induction l with
  | nil => simp [interpretLittle]
  | cons c l ih =>
    have hn : 8 * l.length + 8 = 8 * (c :: l).length := by
      simp [List.length_cons]
      ring
    simp only [List.cons_append, interpretLittle, List.append_eq]
    rw [ih, shiftLeft_lor_distrib, ← Nat.shiftLeft_add, hn, ← Nat.lor_assoc]

theorem interpretBig_eq_reverse (bs : List Nat) :
    interpretBig bs = interpretLittle bs.reverse := by
  induction bs with
  | nil => rfl
  | cons b bs ih =>
    simp only [interpretBig, ih, List.reverse_cons, interpretLittle_append_singleton,
      List.length_reverse]
    exact Nat.lor_comm _ _

theorem interpretLittle_writeLittle (x n : Nat) :
    interpretLittle (writeLittle x n) = x % 2 ^ (8 * n) := by
  induction n generalizing x with
  | zero => simp [writeLittle, interpretLittle, Nat.mod_one]
  | succ n ih =>
    have hlt : x &&& 255 < 256 := by
      have := Nat.and_le_right (n := x) (m := 255)
      omega
    have h255 : x &&& 255 = x % 256 := by
      simpa using Nat.and_pow_two_sub_one_eq_mod x 8
    have hshift : x >>> 8 = x / 256 := by
      simpa using Nat.shiftRight_eq_div_pow x 8
    rw [writeLittle, interpretLittle, ih, lor_shiftLeft_eight _ hlt, h255, hshift]
    have hpow : (2 : Nat) ^ (8 * (n + 1)) = 256 * 2 ^ (8 * n) := by
      rw [Nat.mul_succ, Nat.pow_add]
      ring
    rw [hpow, Nat.mod_mul]

theorem interpret_write_endianess (e : endianess) (x n : Nat) :
    interpret_with_endianess e (write_with_endianess e x n) = x % 2 ^ (8 * n) := by
  cases e with
  | LITTLE => exact interpretLittle_writeLittle x n
  | BIG =>
    simp only [interpret_with_endianess, write_with_endianess, writeBig_eq_reverse,
      interpretBig_eq_reverse, List.reverse_reverse]
    exact interpretLittle_writeLittle x n

theorem interpret_write_endianess_of_lt (e : endianess) {x : Nat} (n : Nat)
    (h : x < 2 ^ (8 * n)) :
    interpret_with_endianess e (write_with_endianess e x n) = x := by
  rw [interpret_write_endianess, Nat.mod_eq_of_lt h]

/-- Modelled from the spec: `upd/detail/signed_representation.hpp` (the
`to_signed_mode` family used by `write_as` in `serialization.hpp`) is not in
`src/`. Spec 4.A: map a signed value of an `n`-byte type to the unsigned bit
pattern; two's complement is the usual modular interpretation, one's
complement represents a negative as the bitwise inverse of its absolute value
(`2 ^ (8 n) - 1 - |x|`). -/
def to_signed_mode : signed_mode → Nat → Int → Nat
  | .TWOS_COMPLEMENT, n, x => (x % (2 : Int) ^ (8 * n)).toNat
  | .ONES_COMPLEMENT, n, x => if 0 ≤ x then x.toNat else 2 ^ (8 * n) - 1 - x.natAbs

/-- Modelled from the spec: `upd/detail/signed_representation.hpp` (the
`from_signed_mode` family used by `read_as` in `serialization.hpp`) is not in
`src/`. Inverse of `to_signed_mode`: a pattern with the top bit clear is the
value itself, otherwise subtract `2 ^ (8 n)` (two's complement) or
`2 ^ (8 n) - 1` (one's complement). -/
def from_signed_mode : signed_mode → Nat → Nat → Int
  | .TWOS_COMPLEMENT, n, u =>
      if u < 2 ^ (8 * n - 1) then (u : Int) else (u : Int) - (2 : Int) ^ (8 * n)
  | .ONES_COMPLEMENT, n, u =>
      if u < 2 ^ (8 * n - 1) then (u : Int) else (u : Int) - ((2 : Int) ^ (8 * n) - 1)

/-- Values of an `n`-byte signed type that the declared `signed_mode` can
represent on the wire (spec 4.A; one's complement has no `-2 ^ (8 n - 1)`). -/
@[reducible]
def representable : signed_mode → Nat → Int → Prop
  | .TWOS_COMPLEMENT, n, x => -((2 : Int) ^ (8 * n - 1)) ≤ x ∧ x < (2 : Int) ^ (8 * n - 1)
  | .ONES_COMPLEMENT, n, x => -((2 : Int) ^ (8 * n - 1)) < x ∧ x < (2 : Int) ^ (8 * n - 1)

/-- `upd::write_as` overload for unsigned integers (`serialization.hpp`):
`to_endianess(sequence, x, sizeof x)`. -/
def write_as_unsigned (e : endianess) (n x : Nat) : List Nat :=
  write_with_endianess e x n

/-- `upd::read_as` overload for unsigned integers (`serialization.hpp`):
`from_endianess(sequence, sizeof T)` reads exactly `n` bytes. -/
def read_as_unsigned (e : endianess) (n : Nat) (bs : List Nat) : Nat :=
  interpret_with_endianess e (bs.take n)

/-- `upd::write_as` overload for signed integers (`serialization.hpp`):
`tmp = to_signed_mode(x); to_endianess(sequence, tmp, sizeof x)`. -/
def write_as_signed (e : endianess) (m : signed_mode) (n : Nat) (x : Int) : List Nat :=
  write_with_endianess e (to_signed_mode m n x) n

/-- `upd::read_as` overload for signed integers (`serialization.hpp`):
`tmp = from_endianess(sequence, sizeof T); from_signed_mode(tmp)`. -/
def read_as_signed (e : endianess) (m : signed_mode) (n : Nat) (bs : List Nat) : Int :=
  from_signed_mode m n (interpret_with_endianess e (bs.take n))

/-- `upd::write_as` overload for bounded arrays (`serialization.hpp`): element
`i` is written at offset `i * sizeof element`, so the encodings are emitted
consecutively in ascending index order. -/
def write_as_array (w : α → List Nat) (xs : List α) : List Nat :=
  (xs.map w).flatten

/-- `upd::read_as` overload for bounded arrays (`serialization.hpp`): element
`i` is read at offset `i * sizeof element`; reading at increasing offsets is
modelled by dropping the already-consumed prefix. -/
def read_as_array (r : List Nat → α) (elemSize : Nat) : Nat → List Nat → List α
  | 0, _ => []
  | k + 1, bs => r (bs.take elemSize) :: read_as_array r elemSize k (bs.drop elemSize)

theorem to_signed_mode_lt (m : signed_mode) (n : Nat) (x : Int)
    (hn : 1 ≤ n) (hx : representable m n x) :
    to_signed_mode m n x < 2 ^ (8 * n) := by
  have hp : ((2 ^ (8 * n - 1) : Nat) : Int) = (2 : Int) ^ (8 * n - 1) := by
    push_cast
    ring
  have hP : ((2 ^ (8 * n) : Nat) : Int) = (2 : Int) ^ (8 * n) := by
    push_cast
    ring
  have hpow : (2 : Nat) ^ (8 * n) = 2 * 2 ^ (8 * n - 1) := by
    have h8 : 8 * n - 1 + 1 = 8 * n := by omega
    calc (2 : Nat) ^ (8 * n) = 2 ^ (8 * n - 1 + 1) := by rw [h8]
      _ = 2 ^ (8 * n - 1) * 2 := Nat.pow_succ 2 (8 * n - 1)
      _ = 2 * 2 ^ (8 * n - 1) := Nat.mul_comm _ _
  have hone : 1 ≤ (2 : Nat) ^ (8 * n - 1) := Nat.one_le_two_pow
  cases m with
  | TWOS_COMPLEMENT =>
    obtain ⟨h1, h2⟩ := hx
    rw [← hp] at h1 h2
    simp only [to_signed_mode]
    have hmod1 : 0 ≤ x % (2 : Int) ^ (8 * n) := Int.emod_nonneg x (by positivity)
    have hmod2 : x % (2 : Int) ^ (8 * n) < (2 : Int) ^ (8 * n) :=
      Int.emod_lt_of_pos x (by positivity)
    rw [← hP] at hmod2
    omega
  | ONES_COMPLEMENT =>
    obtain ⟨h1, h2⟩ := hx
    rw [← hp] at h1 h2
    simp only [to_signed_mode]
    split <;> omega

theorem from_to_signed_mode (m : signed_mode) (n : Nat) (x : Int)
    (hn : 1 ≤ n) (hx : representable m n x) :
    from_signed_mode m n (to_signed_mode m n x) = x := by
  have hp : ((2 ^ (8 * n - 1) : Nat) : Int) = (2 : Int) ^ (8 * n - 1) := by
    push_cast
    ring
  have hP : ((2 ^ (8 * n) : Nat) : Int) = (2 : Int) ^ (8 * n) := by
    push_cast
    ring
  have hpow : (2 : Nat) ^ (8 * n) = 2 * 2 ^ (8 * n - 1) := by
    have h8 : 8 * n - 1 + 1 = 8 * n := by omega
    calc (2 : Nat) ^ (8 * n) = 2 ^ (8 * n - 1 + 1) := by rw [h8]
      _ = 2 ^ (8 * n - 1) * 2 := Nat.pow_succ 2 (8 * n - 1)
      _ = 2 * 2 ^ (8 * n - 1) := Nat.mul_comm _ _
  have hone : 1 ≤ (2 : Nat) ^ (8 * n - 1) := Nat.one_le_two_pow
  cases m with
  | TWOS_COMPLEMENT =>
    obtain ⟨h1, h2⟩ := hx
    rw [← hp] at h1 h2
    simp only [to_signed_mode, from_signed_mode]
    rcases le_or_lt 0 x with hx0 | hx0
    · have hmod : x % (2 : Int) ^ (8 * n) = x := by
        apply Int.emod_eq_of_lt hx0
        rw [← hP]
        omega
      rw [hmod, ← hP]
      split <;> omega
    · have hmod : x % (2 : Int) ^ (8 * n) = x + (2 : Int) ^ (8 * n) := by
        have hswap : (x + (2 : Int) ^ (8 * n)) % (2 : Int) ^ (8 * n)
            = x % (2 : Int) ^ (8 * n) := by
          have h1c := Int.add_mul_emod_self_left
            (a := x) (b := (2 : Int) ^ (8 * n)) (c := 1)
          rw [Int.mul_one] at h1c
          exact h1c
        rw [← hswap]
        apply Int.emod_eq_of_lt
        · rw [← hP]
          omega
        · rw [← hP]
          omega
      rw [hmod, ← hP]
      split <;> omega
  | ONES_COMPLEMENT =>
    obtain ⟨h1, h2⟩ := hx
    rw [← hp] at h1 h2
    simp only [to_signed_mode, from_signed_mode]
    rcases le_or_lt 0 x with hx0 | hx0
    · rw [if_pos hx0, ← hP]
      split <;> omega
    · rw [if_neg (not_le.mpr hx0), ← hP]
      split <;> omega

theorem read_write_as_unsigned (e : endianess) (n : Nat) {x : Nat}
    (h : x < 2 ^ (8 * n)) :
    read_as_unsigned e n (write_as_unsigned e n x) = x := by
  unfold read_as_unsigned write_as_unsigned
  rw [List.take_of_length_le (by rw [length_write_with_endianess])]
  exact interpret_write_endianess_of_lt e n h

theorem read_write_as_signed (e : endianess) (m : signed_mode) (n : Nat) {x : Int}
    (hn : 1 ≤ n) (hx : representable m n x) :
    read_as_signed e m n (write_as_signed e m n x) = x := by
  unfold read_as_signed write_as_signed
  rw [List.take_of_length_le (by rw [length_write_with_endianess])]
  rw [interpret_write_endianess_of_lt e n (to_signed_mode_lt m n x hn hx)]
  exact from_to_signed_mode m n x hn hx

theorem read_write_as_array (w : α → List Nat) (r : List Nat → α) (elemSize : Nat)
    (xs : List α) (hlen : ∀ x ∈ xs, (w x).length = elemSize)
    (hrt : ∀ x ∈ xs, r (w x) = x) :
    read_as_array r elemSize xs.length (write_as_array w xs) = xs := by
  induction xs with
  | nil => rfl
  | cons a xs ih =>
    have hwl : (w a).length = elemSize := hlen a (List.mem_cons_self a xs)
    simp only [List.length_cons, write_as_array, List.map_cons, List.flatten_cons,
      read_as_array]
    rw [List.take_left' hwl, List.drop_left' hwl, hrt a (List.mem_cons_self a xs)]
    exact congrArg (List.cons a)
      (ih (fun x hx => hlen x (List.mem_cons_of_mem a hx))
        (fun x hx => hrt x (List.mem_cons_of_mem a hx)))

/-- Claim C2: for every declared pair of byte order (`BIG`, `LITTLE`) and
signed mode (`ONES_COMPLEMENT`, `TWOS_COMPLEMENT`), and for every
representable value `x` of every serializable type `T` (fixed-width unsigned
integer, signed integer, or fixed-size array thereof), reading back a buffer
produced by `write_as` yields `x`:
`read_as (write_as x) = x` (`serialization.hpp`, `unaligned_data.hpp`). -/
theorem C2_read_as_write_as_roundtrip (e : endianess) (m : signed_mode)
    (n : Nat) (hn : 1 ≤ n) :
    (∀ x : Nat, x < 2 ^ (8 * n) →
      read_as_unsigned e n (write_as_unsigned e n x) = x) ∧
    (∀ x : Int, representable m n x →
      read_as_signed e m n (write_as_signed e m n x) = x) ∧
    (∀ xs : List Nat, (∀ x ∈ xs, x < 2 ^ (8 * n)) →
      read_as_array (read_as_unsigned e n) n xs.length
        (write_as_array (write_as_unsigned e n) xs) = xs) ∧
    (∀ xs : List Int, (∀ x ∈ xs, representable m n x) →
      read_as_array (read_as_signed e m n) n xs.length
        (write_as_array (write_as_signed e m n) xs) = xs) := by
  refine ⟨fun x hx => read_write_as_unsigned e n hx,
    fun x hx => read_write_as_signed e m n hn hx, fun xs hxs => ?_, fun xs hxs => ?_⟩
  · exact read_write_as_array _ _ n xs
      (fun x _ => length_write_with_endianess e x n)
      (fun x hx => read_write_as_unsigned e n (hxs x hx))
  · exact read_write_as_array _ _ n xs
      (fun x _ => length_write_with_endianess e _ n)
      (fun x hx => read_write_as_signed e m n hn (hxs x hx))

/-- Concrete instantiation of `C2_read_as_write_as_roundtrip`: big-endian
one's-complement round-trip of `-5` on two bytes, and a little-endian
two's-complement array round-trip. -/
theorem C2_read_as_write_as_roundtrip_witness :
    (1 ≤ 2 ∧ representable .ONES_COMPLEMENT 2 (-5)) ∧
    read_as_signed .BIG .ONES_COMPLEMENT 2
      (write_as_signed .BIG .ONES_COMPLEMENT 2 (-5)) = -5 ∧
    read_as_array (read_as_unsigned .LITTLE 2) 2 2
      (write_as_array (write_as_unsigned .LITTLE 2) [515, 7]) = [515, 7] :=
  ⟨⟨by decide, by decide⟩,
    (C2_read_as_write_as_roundtrip .BIG .ONES_COMPLEMENT 2 (by decide)).2.1
      (-5) (by decide),
    (C2_read_as_write_as_roundtrip .LITTLE .TWOS_COMPLEMENT 2 (by decide)).2.2.1
      [515, 7] (by decide)⟩

/-- `unaligned_data::write` for an unsigned integer at byte offset `off`
(`unaligned_data.hpp`): `write_with_endianess(x, offset, sizeof x)` replaces
the `n` bytes starting at `offset` with the serialized value. -/
def unaligned_write (e : endianess) (store : List Nat) (off n x : Nat) : List Nat :=
  store.take off ++ write_with_endianess e x n ++ store.drop (off + n)

/-- `unaligned_data::interpret_as` for an unsigned integer at byte offset
`off` (`unaligned_data.hpp`): `interpret_with_endianess(offset, sizeof T)`
reads the `n` bytes starting at `offset`. -/
def unaligned_interpret_as (e : endianess) (store : List Nat) (off n : Nat) : Nat :=
  interpret_with_endianess e ((store.drop off).take n)

/-- Offset of element `i` of a `tuple` (`tuple.hpp`): `mp_fold` of `mp_plus`
with initial value `mp_size_t<0>` over the first `i` element sizes
(`mp_take_c<type_sizes, I>`). -/
def tuple_offset (sizes : List Nat) (i : Nat) : Nat :=
  (sizes.take i).foldl (· + ·) 0

/-- `tuple::size` (`tuple.hpp`): `mp_fold` of `mp_plus` with initial value
`mp_size_t<0>` over all element sizes. -/
def tuple_storage_size (sizes : List Nat) : Nat :=
  sizes.foldl (· + ·) 0

/-- `tuple::set` (`tuple.hpp`): `m_storage.write(value, offset)` at the
compile-time offset of element `i`, on `sizeof(arg_t<I>)` bytes. -/
def tuple_set (e : endianess) (sizes : List Nat) (i x : Nat)
    (store : List Nat) : List Nat :=
  unaligned_write e store (tuple_offset sizes i) (sizes.getD i 0) x

/-- `tuple::get` (`tuple.hpp`): `m_storage.interpret_as<arg_t<I>>(offset)` at
the compile-time offset of element `i`. -/
def tuple_get (e : endianess) (sizes : List Nat) (i : Nat) (store : List Nat) : Nat :=
  unaligned_interpret_as e store (tuple_offset sizes i) (sizes.getD i 0)

theorem foldl_add_eq_sum (l : List Nat) (a : Nat) : l.foldl (· + ·) a = a + l.sum := by
  induction l generalizing a with
  | nil => simp
  | cons b l ih =>
    rw [List.foldl_cons, ih, List.sum_cons]
    omega

theorem tuple_offset_eq_sum (sizes : List Nat) (i : Nat) :
    tuple_offset sizes i = (sizes.take i).sum := by
  rw [tuple_offset, foldl_add_eq_sum, Nat.zero_add]

theorem tuple_storage_size_eq_sum (sizes : List Nat) :
    tuple_storage_size sizes = sizes.sum := by
  rw [tuple_storage_size, foldl_add_eq_sum, Nat.zero_add]

theorem tuple_offset_add_le (sizes : List Nat) (i : Nat) (hi : i < sizes.length) :
    tuple_offset sizes i + sizes.getD i 0 ≤ tuple_storage_size sizes := by
  rw [tuple_offset_eq_sum, tuple_storage_size_eq_sum]
  have hsplit : sizes.sum = (sizes.take (i + 1)).sum + (sizes.drop (i + 1)).sum := by
    rw [← List.sum_append, List.take_append_drop]
  have htake : (sizes.take (i + 1)).sum = (sizes.take i).sum + sizes.getD i 0 := by
    rw [List.take_succ, List.sum_append, List.getElem?_eq_getElem hi]
    simp [List.getD_eq_getElem?_getD, List.getElem?_eq_getElem hi]
  omega

/-- Claim C5: for every tuple type, the byte offset at which field `i` is
stored equals the sum of the sizes of the fields before it, the total storage
size equals the sum of all field sizes, and `get` after `set` reads back
exactly the stored field (`tuple.hpp`). -/
theorem C5_tuple_layout (e : endianess) (sizes : List Nat) (i : Nat)
    (store : List Nat) (x : Nat) (hi : i < sizes.length)
    (hlen : store.length = tuple_storage_size sizes)
    (hx : x < 2 ^ (8 * sizes.getD i 0)) :
    tuple_offset sizes i = (sizes.take i).sum ∧
    tuple_storage_size sizes = sizes.sum ∧
    tuple_get e sizes i (tuple_set e sizes i x store) = x := by
  refine ⟨tuple_offset_eq_sum sizes i, tuple_storage_size_eq_sum sizes, ?_⟩
  have hoff : tuple_offset sizes i ≤ store.length := by
    have := tuple_offset_add_le sizes i hi
    omega
  have htakelen : (store.take (tuple_offset sizes i)).length = tuple_offset sizes i := by
    rw [List.length_take]
    omega
  have henclen : (write_with_endianess e x (sizes.getD i 0)).length = sizes.getD i 0 :=
    length_write_with_endianess e x (sizes.getD i 0)
  rw [tuple_get, tuple_set, unaligned_write, unaligned_interpret_as,
    List.append_assoc, List.drop_left' htakelen, List.take_left' henclen]
  exact interpret_write_endianess_of_lt e (sizes.getD i 0) hx

/-- Concrete instantiation of `C5_tuple_layout`: a three-field tuple of sizes
`[2, 1, 4]`, setting field 1 of a zeroed store. -/
theorem C5_tuple_layout_witness :
    (1 < ([2, 1, 4] : List Nat).length ∧
      (List.replicate 7 0).length = tuple_storage_size [2, 1, 4] ∧
      (99 : Nat) < 2 ^ (8 * ([2, 1, 4] : List Nat).getD 1 0)) ∧
    (tuple_offset [2, 1, 4] 1 = (([2, 1, 4] : List Nat).take 1).sum ∧
      tuple_storage_size [2, 1, 4] = ([2, 1, 4] : List Nat).sum ∧
      tuple_get .LITTLE [2, 1, 4] 1 (tuple_set .LITTLE [2, 1, 4] 1 99
        (List.replicate 7 0)) = 99) :=
  ⟨⟨by decide, by decide, by decide⟩,
    C5_tuple_layout .LITTLE [2, 1, 4] 1 (List.replicate 7 0) 99
      (by decide) (by decide) (by decide)⟩

/-- Shallow embedding of an `upd::action` (`action.hpp`): the signature
determines the byte sizes of the parameters (`argSizes`) and of the return
type footprint (`retSize`, `0` models a `void` return, whose `flatten_tuple`
is the empty tuple); `fn` is the semantics of the wrapped callable on the
decoded argument values. -/
structure ActionSig where
  argSizes : List Nat
  retSize : Nat
  fn : List Nat → Nat

/-- `action_model::input_size = tuple_t::size` (`action.hpp`): the size of
the parameter tuple. -/
def ActionSig.input_size (a : ActionSig) : Nat :=
  tuple_storage_size a.argSizes

/-- `action_model::output_size = flatten_tuple_t<ret>::size` (`action.hpp`). -/
def ActionSig.output_size (a : ActionSig) : Nat :=
  a.retSize

/-- Argument decoding performed by `tuple::invoke` inside `detail::call`
(`action.hpp` / `tuple.hpp`): each argument is read at the cumulative offset
of the preceding argument sizes. -/
def decode_args (e : endianess) : List Nat → List Nat → List Nat
  | [], _ => []
  | sz :: rest, bs =>
      interpret_with_endianess e (bs.take sz) :: decode_args e rest (bs.drop sz)

/-- `detail::call` followed by `detail::insert` (`action.hpp`): fill the
input tuple with exactly `input_size` bytes from the getter, invoke the
callable on the decoded arguments, then emit the serialized return value
(exactly `output_size` bytes; none when the return type is `void`). The
getter is modelled as the not-yet-consumed byte stream; the first component
of the result is the stream after the call, the second the emitted bytes. -/
def ActionSig.invoke (e : endianess) (a : ActionSig) (stream : List Nat) :
    List Nat × List Nat :=
  (stream.drop a.input_size,
    write_with_endianess e
      (a.fn (decode_args e a.argSizes (stream.take a.input_size))) a.retSize)

/-- Shallow embedding of an `upd::dispatcher` (`dispatcher.hpp`): the byte
order, `sizeof(index_t)` and the action table derived from the keyring. -/
structure DispatcherM where
  e : endianess
  index_size : Nat
  actions : List ActionSig

/-- `dispatcher::get_index` (`dispatcher.hpp`): read exactly
`sizeof(index_t)` bytes through the index tuple and decode them. -/
def DispatcherM.get_index (d : DispatcherM) (stream : List Nat) : Nat :=
  interpret_with_endianess d.e (stream.take d.index_size)

/-- `dispatcher::operator()` (`dispatcher.hpp`): decode the index, and when
it is in range forward the getter and putter to `actions[index]`; the decoded
index is returned either way. Result: (returned index, remaining input
stream, bytes produced on the putter). -/
def DispatcherM.dispatch (d : DispatcherM) (stream : List Nat) :
    Nat × List Nat × List Nat :=
  let index := d.get_index stream
  let rest := stream.drop d.index_size
  if h : index < d.actions.length then
    let r := (d.actions.get ⟨index, h⟩).invoke d.e rest
    (index, r.1, r.2)
  else
    (index, rest, [])

/-- Claim C3: dispatch first consumes exactly `sizeof(index_type)` bytes from
the getter to decode the index and returns that index even when it is out of
range; when the index is in range it additionally consumes exactly
`input_size(idx)` further bytes and produces exactly `output_size(idx)` bytes
on the putter (zero for a `void` return); when the index is out of range it
performs no further getter or putter calls (`dispatcher.hpp`, `action.hpp`). -/
theorem C3_dispatch_conservation (d : DispatcherM) (stream : List Nat) :
    (d.dispatch stream).1 = d.get_index stream ∧
    (∀ h : d.get_index stream < d.actions.length,
      (d.dispatch stream).2.1 = stream.drop
        (d.index_size + (d.actions.get ⟨d.get_index stream, h⟩).input_size) ∧
      (d.dispatch stream).2.2.length =
        (d.actions.get ⟨d.get_index stream, h⟩).output_size) ∧
    (¬ d.get_index stream < d.actions.length →
      (d.dispatch stream).2.1 = stream.drop d.index_size ∧
      (d.dispatch stream).2.2 = []) := by
  by_cases h : d.get_index stream < d.actions.length
  · refine ⟨?_, fun _ => ⟨?_, ?_⟩, fun hc => absurd h hc⟩
    · simp [DispatcherM.dispatch, h]
    · simp only [DispatcherM.dispatch, dif_pos h, ActionSig.invoke]
      rw [List.drop_drop]
    · simp only [DispatcherM.dispatch, dif_pos h, ActionSig.invoke,
        ActionSig.output_size]
      exact length_write_with_endianess _ _ _
  · refine ⟨?_, fun hc => absurd hc h, fun _ => ⟨?_, ?_⟩⟩ <;>
      simp [DispatcherM.dispatch, h]

/-- Concrete instantiation of `C3_dispatch_conservation`: a dispatcher with a
single one-byte-argument, one-byte-result action, fed the request
`[0, 42, 9]` (index `0`, argument `42`, one surplus byte). -/
theorem C3_dispatch_conservation_witness :
    (DispatcherM.get_index ⟨.LITTLE, 1, [⟨[1], 1, fun args => args.headD 0 + 1⟩]⟩
        [0, 42, 9] <
      ([⟨[1], 1, fun args => args.headD 0 + 1⟩] : List ActionSig).length) ∧
    (DispatcherM.dispatch ⟨.LITTLE, 1, [⟨[1], 1, fun args => args.headD 0 + 1⟩]⟩
        [0, 42, 9]).2.1 = [9] ∧
    (DispatcherM.dispatch ⟨.LITTLE, 1, [⟨[1], 1, fun args => args.headD 0 + 1⟩]⟩
        [0, 42, 9]).2.2.length = 1 := by
  refine ⟨by decide, ?_⟩
  have h := (C3_dispatch_conservation
    ⟨.LITTLE, 1, [⟨[1], 1, fun args => args.headD 0 + 1⟩]⟩ [0, 42, 9]).2.1
    (by decide)
  rw [h.1, h.2]
  exact ⟨by decide, by decide⟩

/-- Modelled from the spec where needed: `detail::max` over a typelist of
size constants (`detail/type_traits/typelist.hpp` is not in `src/`; spec 4.I
reads `max over i`). Folding `max` over the mapped sizes. -/
def max_over (l : List Nat) : Nat :=
  l.foldl max 0

/-- `detail::map_parameters_size` applied to the keyring's signature list
(used in `buffered_undispatcher.hpp`): the total parameter byte size of each
signature. -/
def map_parameters_size (sigs : List ActionSig) : List Nat :=
  sigs.map ActionSig.input_size

/-- Modelled from the spec: the per-signature return-type footprints that
`needed_output_buffer_size` is documented to aggregate (spec 4.I:
`max_output = max over i of output_size(Sig_i)`); the corresponding
`map_return_size` metafunction is not used in `src/`. -/
def map_return_size (sigs : List ActionSig) : List Nat :=
  sigs.map ActionSig.output_size

/-- `detail::needed_input_buffer_size` (`buffered_undispatcher.hpp`, lines
28-32): `max(map_parameters_size(signatures)) + sizeof(index_t)`. -/
def needed_input_buffer_size (index_size : Nat) (sigs : List ActionSig) : Nat :=
  max_over (map_parameters_size sigs) + index_size

/-- `detail::needed_output_buffer_size` (`buffered_undispatcher.hpp`, lines
34-36). Its doc comment says it is the byte count needed to represent any
action response, but the definition in the source aggregates
`map_parameters_size`, exactly as the input metafunction does. -/
def needed_output_buffer_size (sigs : List ActionSig) : Nat :=
  max_over (map_parameters_size sigs)

/-- `single_buffered_undispatcher::buffer_size` (`buffered_undispatcher.hpp`,
lines 287-289): `max_p` of the two buffer-size metafunctions. -/
def single_buffered_buffer_size (index_size : Nat) (sigs : List ActionSig) : Nat :=
  max (needed_input_buffer_size index_size sigs) (needed_output_buffer_size sigs)

/-- Claim C4 (evaluation at the failing keyring): for a keyring with the
single signature taking one byte of parameters and returning a four-byte
value, the source's `needed_output_buffer_size` yields the maximal parameter
size `1`, not the maximal return-type footprint `4` required by the claim,
while `needed_input_buffer_size` and the single-buffer size behave as
claimed. -/
theorem C4_needed_output_buffer_size_bug :
    needed_input_buffer_size 1 [⟨[1], 4, fun _ => 0⟩] = 1 + 1 ∧
    needed_output_buffer_size [⟨[1], 4, fun _ => 0⟩] = 1 ∧
    max_over (map_return_size [⟨[1], 4, fun _ => 0⟩]) = 4 ∧
    single_buffered_buffer_size 1 [⟨[1], 4, fun _ => 0⟩] = 2 := by
  refine ⟨rfl, rfl, rfl, rfl⟩

/-- Packet status returned by the buffered layer (`dispatcher.hpp`,
`upd::packet_status`). -/
inductive packet_status
  | LOADING_PACKET
  | DROPPED_PACKET
  | RESOLVED_PACKET
deriving DecidableEq

/-- State of a `buffered_undispatcher` (`buffered_undispatcher.hpp`): the
scalar fields `m_is_index_loaded`, `m_load_count`, `m_ibuf_next`,
`m_obuf_next`, `m_obuf_bottom` plus the contents of the input and output
buffers supplied by the derived class (`ibuf_begin()` / `obuf_begin()`). -/
structure BufState where
  is_index_loaded : Bool
  load_count : Nat
  ibuf_next : Nat
  obuf_next : Nat
  obuf_bottom : Nat
  ibuf : Nat → Nat
  obuf : Nat → Nat

/-- The `--m_load_count` step on a `std::size_t` counter: subtraction of one
modulo `2 ^ 64`. -/
def size_t_dec (k : Nat) : Nat :=
  (k + (2 ^ 64 - 1)) % 2 ^ 64

/-- Write one byte into a buffer cell (`ibuf_begin()[pos] = b`). -/
def storeByte (f : Nat → Nat) (pos b : Nat) : Nat → Nat :=
  fun i => if i = pos then b else f i

/-- Read `n` consecutive buffer cells starting at `off` (the
pointer-advancing byte getters used over `ibuf_begin()`). -/
def readBuf (f : Nat → Nat) (off n : Nat) : List Nat :=
  (List.range n).map (fun i => f (off + i))

/-- Write a byte list into consecutive buffer cells starting at `off` (the
pointer-advancing byte putters used over `obuf_begin()`). -/
def writeBytes (f : Nat → Nat) (off : Nat) (bs : List Nat) : Nat → Nat :=
  fun i => if off ≤ i ∧ i < off + bs.length then bs.getD (i - off) 0 else f i

/-- The `buffered_undispatcher` default constructor
(`buffered_undispatcher.hpp`, lines 84-85): `m_is_index_loaded{false}`,
`m_load_count{sizeof(index_t)}`, `m_ibuf_next{0}`, `m_obuf_next{0}`,
`m_obuf_bottom{0}`; the buffers start with arbitrary (uninitialized)
contents, passed here as parameters. -/
def BufState.init (d : DispatcherM) (ibuf0 obuf0 : Nat → Nat) : BufState :=
  ⟨false, d.index_size, 0, 0, 0, ibuf0, obuf0⟩

/-- `buffered_undispatcher::put` (`buffered_undispatcher.hpp`, lines
122-155), translated branch for branch: store the byte, decrement
`m_load_count` (with `size_t` wrap-around), and return `LOADING_PACKET`,
`RESOLVED_PACKET` or `DROPPED_PACKET` while updating the scalar state. Note
that the source resets the state and returns `RESOLVED_PACKET` without
invoking the resolved action and without touching the output buffer or
`m_obuf_bottom`. -/
def BufState.put (d : DispatcherM) (s : BufState) (b : Nat) :
    packet_status × BufState :=
  let ibuf1 := storeByte s.ibuf s.ibuf_next b
  let next1 := s.ibuf_next + 1
  let lc := size_t_dec s.load_count
  if 0 < lc then
    (.LOADING_PACKET, { s with ibuf := ibuf1, ibuf_next := next1, load_count := lc })
  else if s.is_index_loaded then
    (.RESOLVED_PACKET,
      { s with ibuf := ibuf1, is_index_loaded := false,
               load_count := d.index_size, ibuf_next := 0 })
  else
    let index := interpret_with_endianess d.e (readBuf ibuf1 0 d.index_size)
    if h : index < d.actions.length then
      if (d.actions.get ⟨index, h⟩).input_size = 0 then
        (.RESOLVED_PACKET,
          { s with ibuf := ibuf1, is_index_loaded := false,
                   load_count := d.index_size, ibuf_next := 0 })
      else
        (.LOADING_PACKET,
          { s with ibuf := ibuf1, is_index_loaded := true,
                   load_count := (d.actions.get ⟨index, h⟩).input_size,
                   ibuf_next := next1 })
    else
      (.DROPPED_PACKET,
        { s with ibuf := ibuf1, is_index_loaded := false,
                 load_count := d.index_size, ibuf_next := 0 })

/-- `buffered_undispatcher::is_loaded` (`buffered_undispatcher.hpp`, line
89): `m_obuf_next != m_obuf_bottom`. -/
def BufState.is_loaded (s : BufState) : Bool :=
  s.obuf_next != s.obuf_bottom

/-- `buffered_undispatcher::get` (`buffered_undispatcher.hpp`, line 176):
`is_loaded() ? obuf_begin()[m_obuf_next++] : byte_t{}`. -/
def BufState.get (s : BufState) : Nat × BufState :=
  if s.is_loaded then (s.obuf s.obuf_next, { s with obuf_next := s.obuf_next + 1 })
  else (0, s)

/-- Loop body count for `write_to`: the `while (is_loaded()) dest(get());`
loop runs `m_obuf_bottom - m_obuf_next` times; the fuel argument makes the
recursion structural. -/
def writeToAux : Nat → BufState → BufState × List Nat
  | 0, s => (s, [])
  | fuel + 1, s =>
    if s.is_loaded then
      let r := s.get
      let r2 := writeToAux fuel r.2
      (r2.1, r.1 :: r2.2)
    else
      (s, [])

/-- `buffered_undispatcher::write_to` (`buffered_undispatcher.hpp`, lines
162-166): drain the output buffer through `get` while `is_loaded()`. -/
def BufState.write_to (s : BufState) : BufState × List Nat :=
  writeToAux (s.obuf_bottom - s.obuf_next) s

/-- Fill a fixed-size byte-buffer argument of size `size`: the drained bytes
are copied at the front, the remaining cells keep their uninitialized
contents `junk`. -/
def listFill (bs : List Nat) (junk : Nat → Nat) (size : Nat) : List Nat :=
  bs.take size ++ (List.range (size - bs.length)).map (fun i => junk (bs.length + i))

/-- `buffered_undispatcher::reply` (`buffered_undispatcher.hpp`, lines
231-244): fail unless `m_obuf_next == 0 && m_obuf_bottom <= buf_size` (with
`buf_size` the byte size of the foreign key's single byte-buffer parameter);
otherwise `write_to(std::begin(buf))` drains the output buffer into `buf` and
the key serializes its index followed by the buffer bytes into `output`.
`index_bytes` are the serialized index of the foreign key; `junk` is the
uninitialized content of `buf`. Result: (return value, new state, bytes
written to `output`). -/
def BufState.reply (s : BufState) (index_bytes : List Nat) (buf_size : Nat)
    (junk : Nat → Nat) : Bool × BufState × List Nat :=
  if ¬(s.obuf_next = 0 ∧ s.obuf_bottom ≤ buf_size) then
    (false, s, [])
  else
    let r := s.write_to
    (true, r.1, index_bytes ++ listFill r.2 junk buf_size)

/-- `k2o::buffered_dispatcher::read` (`k2o/buffered_dispatcher.hpp`, lines
74-96), the older sibling of `buffered_undispatcher::put`: on completion of
the argument bytes it resets the input state, re-reads the index, and when it
is in range it rewinds the output buffer and invokes the matching order,
writing the serialized result at `obuf[0..]` and leaving
`m_obuf_bottom = bytes written`, `m_obuf_next = 0`. In the index phase the
source indexes `m_dispatcher[idx]` without a range check (undefined behavior
when out of range, modelled by `getD` with default `0`). -/
def k2o_read (d : DispatcherM) (s : BufState) (b : Nat) : BufState :=
  let ibuf1 := storeByte s.ibuf s.ibuf_next b
  let next1 := s.ibuf_next + 1
  let lc := size_t_dec s.load_count
  if lc = 0 then
    if s.is_index_loaded then
      let index := interpret_with_endianess d.e (readBuf ibuf1 0 d.index_size)
      let s1 := { s with ibuf := ibuf1, is_index_loaded := false,
                         load_count := d.index_size, ibuf_next := 0 }
      if h : index < d.actions.length then
        let a := d.actions.get ⟨index, h⟩
        let ret := a.fn (decode_args d.e a.argSizes (readBuf ibuf1 d.index_size a.input_size))
        let out := write_with_endianess d.e ret a.retSize
        { s1 with obuf := writeBytes s.obuf 0 out, obuf_next := 0,
                  obuf_bottom := out.length }
      else
        s1
    else
      let index := interpret_with_endianess d.e (readBuf ibuf1 0 d.index_size)
      { s with ibuf := ibuf1, ibuf_next := next1, is_index_loaded := true,
               load_count := (d.actions.map ActionSig.input_size).getD index 0 }
  else
    { s with ibuf := ibuf1, ibuf_next := next1, load_count := lc }

/-- An action taking one one-byte argument and returning its successor on one
byte; used to instantiate the state-machine theorems. -/
def addOneAction : ActionSig :=
  ⟨[1], 1, fun args => args.headD 0 + 1⟩

/-- A dispatcher over a keyring with the single action `addOneAction`
(`index_t` is one byte). -/
def addOneDispatcher : DispatcherM :=
  ⟨.LITTLE, 1, [addOneAction]⟩

/-- Claim C1 (evaluation at the failing input): feeding the complete request
`[0x00, 0x2A]` for `addOneAction` to `buffered_undispatcher::put` returns
`RESOLVED_PACKET`, but the action is never invoked: `m_obuf_bottom` stays
`0` and the output buffer is untouched, although the resolved action's
`output_size` is `1`. The sibling `k2o::buffered_dispatcher::read`, fed the
same two bytes, does invoke the action: its `m_obuf_bottom` becomes `1` and
`obuf[0]` holds the serialized result `0x2B`. -/
theorem C1_put_resolves_without_invoking :
    (BufState.put addOneDispatcher
      (BufState.put addOneDispatcher
        (BufState.init addOneDispatcher (fun _ => 0) (fun _ => 0)) 0).2 42).1
      = packet_status.RESOLVED_PACKET ∧
    (BufState.put addOneDispatcher
      (BufState.put addOneDispatcher
        (BufState.init addOneDispatcher (fun _ => 0) (fun _ => 0)) 0).2 42).2.obuf_bottom
      = 0 ∧
    (BufState.put addOneDispatcher
      (BufState.put addOneDispatcher
        (BufState.init addOneDispatcher (fun _ => 0) (fun _ => 0)) 0).2 42).2.obuf
      = (fun _ => 0) ∧
    addOneAction.output_size = 1 ∧
    (k2o_read addOneDispatcher
      (k2o_read addOneDispatcher
        (BufState.init addOneDispatcher (fun _ => 0) (fun _ => 0)) 0) 42).obuf_bottom
      = 1 ∧
    (k2o_read addOneDispatcher
      (k2o_read addOneDispatcher
        (BufState.init addOneDispatcher (fun _ => 0) (fun _ => 0)) 0) 42).obuf 0
      = 43 := by
  refine ⟨by decide, by decide, ?_, by decide, by decide, by decide⟩
  rfl

/-- Claim C8: `get` returns `obuf[obuf_next]` and increments `obuf_next` when
`obuf_next < obuf_bottom` (otherwise it returns an arbitrary byte), and
`is_loaded` returns `true` exactly when `obuf_next != obuf_bottom`
(`buffered_undispatcher.hpp`, lines 89 and 176). -/
theorem C8_get_returns_staged_byte (s : BufState) :
    (s.obuf_next < s.obuf_bottom →
      (BufState.get s).1 = s.obuf s.obuf_next ∧
      (BufState.get s).2 = { s with obuf_next := s.obuf_next + 1 }) ∧
    (s.is_loaded = true ↔ s.obuf_next ≠ s.obuf_bottom) := by
  constructor
  · intro h
    have hl : s.is_loaded = true := by
      simp only [BufState.is_loaded, bne_iff_ne]
      omega
    simp [BufState.get, hl]
  · simp [BufState.is_loaded]

/-- Concrete instantiation of `C8_get_returns_staged_byte`: a state with two
staged bytes, none drained yet. -/
theorem C8_get_returns_staged_byte_witness :
    ((0 : Nat) < 2 ∧
      (BufState.get ⟨false, 1, 0, 0, 2, fun _ => 0, fun i => 10 + i⟩).1 = 10) ∧
    (BufState.is_loaded ⟨false, 1, 0, 0, 2, fun _ => 0, fun i => 10 + i⟩ = true ↔
      (0 : Nat) ≠ 2) :=
  ⟨⟨by decide,
    by
      rw [((C8_get_returns_staged_byte
        ⟨false, 1, 0, 0, 2, fun _ => 0, fun i => 10 + i⟩).1 (by decide)).1]
      decide⟩,
    (C8_get_returns_staged_byte ⟨false, 1, 0, 0, 2, fun _ => 0, fun i => 10 + i⟩).2⟩

/-- Claim C10: when the output buffer is empty (`obuf_next = obuf_bottom`),
`get` returns the fixed value `byte_t{} = 0` and leaves the whole state
unchanged (`buffered_undispatcher.hpp`, line 176). -/
theorem C10_get_on_empty_buffer (s : BufState) (h : s.obuf_next = s.obuf_bottom) :
    BufState.get s = (0, s) := by
  simp [BufState.get, BufState.is_loaded, h]

/-- Concrete instantiation of `C10_get_on_empty_buffer`: a freshly
constructed dispatcher state. -/
theorem C10_get_on_empty_buffer_witness :
    (BufState.init addOneDispatcher (fun _ => 0) (fun _ => 7)).obuf_next
      = (BufState.init addOneDispatcher (fun _ => 0) (fun _ => 7)).obuf_bottom ∧
    BufState.get (BufState.init addOneDispatcher (fun _ => 0) (fun _ => 7))
      = (0, BufState.init addOneDispatcher (fun _ => 0) (fun _ => 7)) :=
  ⟨rfl, C10_get_on_empty_buffer _ rfl⟩

/-- Claim C7: when the decoded leading index is out of range, `put` returns
`DROPPED_PACKET` and the state afterwards matches a freshly constructed
dispatcher (`is_index_loaded = false`, `load_count = sizeof(index_t)`,
`ibuf_next = 0`) with the output buffer contents and both output positions
untouched (`buffered_undispatcher.hpp`, lines 148-153 and 84-85). -/
theorem C7_dropped_resets_state (d : DispatcherM) (s : BufState) (b : Nat)
    (hidle : s.is_index_loaded = false) (hlast : s.load_count = 1)
    (hoor : d.actions.length ≤ interpret_with_endianess d.e
      (readBuf (storeByte s.ibuf s.ibuf_next b) 0 d.index_size)) :
    (BufState.put d s b).1 = packet_status.DROPPED_PACKET ∧
    (BufState.put d s b).2.is_index_loaded
      = (BufState.init d s.ibuf s.obuf).is_index_loaded ∧
    (BufState.put d s b).2.load_count = (BufState.init d s.ibuf s.obuf).load_count ∧
    (BufState.put d s b).2.ibuf_next = (BufState.init d s.ibuf s.obuf).ibuf_next ∧
    (BufState.put d s b).2.obuf = s.obuf ∧
    (BufState.put d s b).2.obuf_next = s.obuf_next ∧
    (BufState.put d s b).2.obuf_bottom = s.obuf_bottom := by
  have hdec : size_t_dec s.load_count = 0 := by
    rw [hlast]
    decide
  simp [BufState.put, BufState.init, hdec, hidle, dif_neg (Nat.not_lt.mpr hoor)]

/-- Concrete instantiation of `C7_dropped_resets_state`: the one-action
dispatcher receives the out-of-range index `5`. -/
theorem C7_dropped_resets_state_witness :
    ((BufState.init addOneDispatcher (fun _ => 0) (fun _ => 0)).is_index_loaded = false ∧
      (BufState.init addOneDispatcher (fun _ => 0) (fun _ => 0)).load_count = 1 ∧
      addOneDispatcher.actions.length ≤ interpret_with_endianess addOneDispatcher.e
        (readBuf (storeByte (BufState.init addOneDispatcher (fun _ => 0) (fun _ => 0)).ibuf
          (BufState.init addOneDispatcher (fun _ => 0) (fun _ => 0)).ibuf_next 5) 0
          addOneDispatcher.index_size)) ∧
    (BufState.put addOneDispatcher
      (BufState.init addOneDispatcher (fun _ => 0) (fun _ => 0)) 5).1
      = packet_status.DROPPED_PACKET :=
  ⟨⟨rfl, rfl, by decide⟩,
    (C7_dropped_resets_state addOneDispatcher
      (BufState.init addOneDispatcher (fun _ => 0) (fun _ => 0)) 5 rfl rfl (by decide)).1⟩

theorem length_readBuf (f : Nat → Nat) (off n : Nat) :
    (readBuf f off n).length = n := by
  simp [readBuf]

theorem readBuf_succ (f : Nat → Nat) (off n : Nat) :
    readBuf f off (n + 1) = f off :: readBuf f (off + 1) n := by
  unfold readBuf
  rw [List.range_succ_eq_map, List.map_cons, List.map_map]
  refine congrArg₂ List.cons (by rw [Nat.add_zero]) ?_
  apply List.map_congr_left
  intro i _
  show f (off + (i + 1)) = f (off + 1 + i)
  congr 1
  omega

theorem writeToAux_spec (fuel : Nat) : ∀ s : BufState,
    s.obuf_next + fuel = s.obuf_bottom →
    writeToAux fuel s
      = ({ s with obuf_next := s.obuf_bottom }, readBuf s.obuf s.obuf_next fuel) := by
  induction fuel with
  | zero =>
    intro s h
    cases s
    simp only [Nat.add_zero] at h
    subst h
    rfl
  | succ fuel ih =>
    intro s h
    have hl : s.is_loaded = true := by
      simp only [BufState.is_loaded, bne_iff_ne]
      omega
    simp only [writeToAux, hl, if_true, BufState.get]
    rw [ih { s with obuf_next := s.obuf_next + 1 } (by simp; omega), readBuf_succ]

theorem write_to_drains (s : BufState) (h : s.obuf_next ≤ s.obuf_bottom) :
    s.write_to = ({ s with obuf_next := s.obuf_bottom },
      readBuf s.obuf s.obuf_next (s.obuf_bottom - s.obuf_next)) := by
  apply writeToAux_spec
  omega

/-- Claim C9: `reply` returns `false` with no side effect whenever the output
buffer has been partially drained (`obuf_next != 0`) or the staged data does
not fit the foreign key's byte-buffer argument; otherwise it forwards the
staged response through the key (the emitted request starts with the key's
index bytes followed by the staged bytes) and drains the local output buffer,
returning `true` (`buffered_undispatcher.hpp`, lines 231-244). -/
theorem C9_reply_forwards_or_fails (s : BufState) (index_bytes : List Nat)
    (buf_size : Nat) (junk : Nat → Nat) :
    ((s.obuf_next ≠ 0 ∨ buf_size < s.obuf_bottom) →
      s.reply index_bytes buf_size junk = (false, s, [])) ∧
    (s.obuf_next = 0 → s.obuf_bottom ≤ buf_size →
      (s.reply index_bytes buf_size junk).1 = true ∧
      (s.reply index_bytes buf_size junk).2.1 = { s with obuf_next := s.obuf_bottom } ∧
      ((s.reply index_bytes buf_size junk).2.2).take
          (index_bytes.length + s.obuf_bottom)
        = index_bytes ++ readBuf s.obuf 0 s.obuf_bottom) := by
  constructor
  · intro h
    have hc : ¬(s.obuf_next = 0 ∧ s.obuf_bottom ≤ buf_size) := by omega
    simp [BufState.reply, hc]
  · intro h0 hfit
    have hcc : ¬¬(s.obuf_next = 0 ∧ s.obuf_bottom ≤ buf_size) :=
      not_not_intro ⟨h0, hfit⟩
    have hbs : (readBuf s.obuf 0 s.obuf_bottom).length = s.obuf_bottom :=
      length_readBuf s.obuf 0 s.obuf_bottom
    have hr : s.reply index_bytes buf_size junk
        = (true, { s with obuf_next := s.obuf_bottom },
          index_bytes ++ listFill (readBuf s.obuf 0 s.obuf_bottom) junk buf_size) := by
      unfold BufState.reply
      rw [if_neg hcc, write_to_drains s (by omega), h0, Nat.sub_zero]
    rw [hr]
    refine ⟨rfl, rfl, ?_⟩
    rw [List.take_append_eq_append_take, List.take_of_length_le (Nat.le_add_right _ _),
      Nat.add_sub_cancel_left]
    congr 1
    have htk : (readBuf s.obuf 0 s.obuf_bottom).length ≤ buf_size := by omega
    rw [listFill, List.take_of_length_le htk]
    exact List.take_left' hbs

/-- Concrete instantiation of `C9_reply_forwards_or_fails`: two staged bytes,
no drain yet, foreign byte-buffer argument of three bytes. -/
theorem C9_reply_forwards_or_fails_witness :
    ((0 : Nat) = 0 ∧ (2 : Nat) ≤ 3) ∧
    (BufState.reply ⟨false, 1, 0, 0, 2, fun _ => 0, fun i => 20 + i⟩ [7] 3
      (fun _ => 9)).1 = true ∧
    (BufState.reply ⟨false, 1, 0, 0, 2, fun _ => 0, fun i => 20 + i⟩ [7] 3
        (fun _ => 9)).2.2.take (1 + 2)
      = [7] ++ readBuf (fun i => 20 + i) 0 2 :=
  ⟨⟨rfl, by decide⟩,
    ((C9_reply_forwards_or_fails ⟨false, 1, 0, 0, 2, fun _ => 0, fun i => 20 + i⟩
      [7] 3 (fun _ => 9)).2 rfl (by decide)).1,
    ((C9_reply_forwards_or_fails ⟨false, 1, 0, 0, 2, fun _ => 0, fun i => 20 + i⟩
      [7] 3 (fun _ => 9)).2 rfl (by decide)).2.2⟩

theorem size_t_dec_of_small (k : Nat) (h1 : 1 ≤ k) (h2 : k < 2 ^ 64) :
    size_t_dec k = k - 1 := by
  have h64 : (2 : Nat) ^ 64 = 18446744073709551616 := by norm_num
  unfold size_t_dec
  rw [h64]
  rw [h64] at h2
  omega

theorem foldl_max_init_le (l : List Nat) (a : Nat) : a ≤ l.foldl max a := by
  induction l generalizing a with
  | nil => exact Nat.le_refl a
  | cons b l ih => exact le_trans (Nat.le_max_left a b) (ih (max a b))

theorem mem_le_foldl_max (l : List Nat) (a x : Nat) (hx : x ∈ l) :
    x ≤ l.foldl max a := by
  induction l generalizing a with
  | nil => cases hx
  | cons b l ih =>
    rcases List.mem_cons.mp hx with rfl | hx2
    · exact le_trans (Nat.le_max_right a x) (foldl_max_init_le l (max a x))
    · exact ih (max a b) hx2

theorem le_max_over (l : List Nat) (x : Nat) (hx : x ∈ l) : x ≤ max_over l :=
  mem_le_foldl_max l 0 x hx

theorem getD_map_input_size (actions : List ActionSig) (i : Nat)
    (h : i < actions.length) :
    (actions.map ActionSig.input_size).getD i 0
      = (actions.get ⟨i, h⟩).input_size := by
  rw [List.getD_eq_getElem?_getD, List.getElem?_map, List.getElem?_eq_getElem h]
  simp [List.get_eq_getElem]

theorem input_size_le_max (actions : List ActionSig) (i : Nat)
    (h : i < actions.length) :
    (actions.get ⟨i, h⟩).input_size
      ≤ max_over (actions.map ActionSig.input_size) := by
  apply le_max_over
  apply List.mem_map_of_mem
  exact actions.get_mem i h

theorem readBuf_storeByte_of_ge (f : Nat → Nat) (pos b off n : Nat)
    (h : off + n ≤ pos) :
    readBuf (storeByte f pos b) off n = readBuf f off n := by
  unfold readBuf
  apply List.map_congr_left
  intro i hi
  rw [List.mem_range] at hi
  unfold storeByte
  rw [if_neg (by omega)]

/-- The index currently stored at the front of the input buffer, as
`get_index` decodes it over `ibuf_begin()`. -/
def decoded_index (d : DispatcherM) (s : BufState) : Nat :=
  interpret_with_endianess d.e (readBuf s.ibuf 0 d.index_size)

/-- Structural facts every real instantiation satisfies: `sizeof(index_t)`
is a positive `size_t` value and every action's `input_size` is a `size_t`
value. -/
def DispatcherM.wf (d : DispatcherM) : Prop :=
  1 ≤ d.index_size ∧ d.index_size < 2 ^ 64 ∧
    ∀ a ∈ d.actions, a.input_size < 2 ^ 64

/-- The state-machine invariants of the buffered dispatcher, with the Idle
clause in its corrected form `load_count + ibuf_next = sizeof(index_t)` (the
claimed `load_count = sizeof(index_t)` only holds when additionally
`ibuf_next = 0`, i.e. between packets, not mid-index). -/
def BufInv (d : DispatcherM) (obuf_cap : Nat) (s : BufState) : Prop :=
  s.ibuf_next ≤ needed_input_buffer_size d.index_size d.actions ∧
  s.obuf_next ≤ s.obuf_bottom ∧
  s.obuf_bottom ≤ obuf_cap ∧
  (s.is_index_loaded = false →
    s.load_count + s.ibuf_next = d.index_size ∧ 1 ≤ s.load_count) ∧
  (s.is_index_loaded = true →
    decoded_index d s < d.actions.length ∧
    s.load_count + s.ibuf_next
      = d.index_size + (d.actions.map ActionSig.input_size).getD (decoded_index d s) 0 ∧
    1 ≤ s.load_count ∧
    d.index_size ≤ s.ibuf_next)

/-- Claim C6 (amended): the state-machine invariants hold initially and are
preserved by every `put` call: `ibuf_next` never exceeds the input-buffer
size, `obuf_next ≤ obuf_bottom ≤ output-buffer size`,
`load_count + ibuf_next = sizeof(index_type)` whenever the index is not
loaded (so `load_count = sizeof(index_type)` exactly in the between-packets
Idle state with `ibuf_next = 0`), and
`load_count + ibuf_next = sizeof(index_type) + input_size(current action)`
whenever the index is loaded (`buffered_undispatcher.hpp`). -/
theorem C6_put_preserves_invariants (d : DispatcherM) (cap : Nat) (hwf : d.wf) :
    (∀ ibuf0 obuf0 : Nat → Nat, BufInv d cap (BufState.init d ibuf0 obuf0)) ∧
    (∀ (s : BufState) (b : Nat), BufInv d cap s → BufInv d cap (BufState.put d s b).2) := by
  obtain ⟨hw1, hw2, hw3⟩ := hwf
  constructor
  · intro i0 o0
    refine ⟨Nat.zero_le _, Nat.le_refl 0, Nat.zero_le cap,
      fun _ => ⟨Nat.add_zero _, hw1⟩, fun hcon => ?_⟩
    exact absurd hcon (by simp [BufState.init])
  · rintro s b ⟨hib, hon, hob, hIdle, hLoaded⟩
    have hneed : needed_input_buffer_size d.index_size d.actions
        = max_over (d.actions.map ActionSig.input_size) + d.index_size := rfl
    have hlc1 : 1 ≤ s.load_count := by
      cases hsil : s.is_index_loaded
      · exact (hIdle hsil).2
      · exact (hLoaded hsil).2.2.1
    have hlcU : s.load_count < 2 ^ 64 := by
      cases hsil : s.is_index_loaded
      · have h := (hIdle hsil).1
        omega
      · obtain ⟨hidx, heq, h1f, hgef⟩ := hLoaded hsil
        have hmem : d.actions.get ⟨decoded_index d s, hidx⟩ ∈ d.actions :=
          d.actions.get_mem _ hidx
        have hlt := hw3 _ hmem
        rw [getD_map_input_size d.actions _ hidx] at heq
        omega
    have hdec : size_t_dec s.load_count = s.load_count - 1 :=
      size_t_dec_of_small _ hlc1 hlcU
    simp only [BufState.put, hdec]
    by_cases hgt : 0 < s.load_count - 1
    · rw [if_pos hgt]
      dsimp only
      refine ⟨?_, hon, hob, ?_, ?_⟩
      · dsimp only
        cases hsil : s.is_index_loaded
        · have h := (hIdle hsil).1
          omega
        · obtain ⟨hidx, heq, h1f, hgef⟩ := hLoaded hsil
          have hle := input_size_le_max d.actions _ hidx
          rw [getD_map_input_size d.actions _ hidx] at heq
          omega
      · intro hsil
        have h := (hIdle hsil).1
        dsimp only
        exact ⟨by omega, hgt⟩
      · intro hsil
        obtain ⟨hidx, heq, h1f, hgef⟩ := hLoaded hsil
        have hread : readBuf (storeByte s.ibuf s.ibuf_next b) 0 d.index_size
            = readBuf s.ibuf 0 d.index_size :=
          readBuf_storeByte_of_ge _ _ _ _ _ (by omega)
        have hdix : decoded_index d
            { s with ibuf := storeByte s.ibuf s.ibuf_next b,
                     ibuf_next := s.ibuf_next + 1,
                     load_count := s.load_count - 1 }
            = decoded_index d s := by
          unfold decoded_index
          exact congrArg _ hread
        dsimp only
        rw [hdix]
        exact ⟨hidx, by omega, hgt, by omega⟩
    · rw [if_neg hgt]
      cases hsil : s.is_index_loaded
      · rw [if_neg Bool.false_ne_true]
        by_cases hidx : interpret_with_endianess d.e
            (readBuf (storeByte s.ibuf s.ibuf_next b) 0 d.index_size)
            < d.actions.length
        · rw [dif_pos hidx]
          by_cases hz : (d.actions.get ⟨_, hidx⟩).input_size = 0
          · rw [if_pos hz]
            dsimp only
            refine ⟨Nat.zero_le _, hon, hob, fun _ => ⟨Nat.add_zero _, hw1⟩,
              fun hcon => absurd hcon (by simp)⟩
          · rw [if_neg hz]
            dsimp only
            have h := (hIdle hsil).1
            refine ⟨by dsimp only; omega, hon, hob,
              fun hcon => absurd hcon (by simp), fun _ => ?_⟩
            have hdix : decoded_index d
                { s with ibuf := storeByte s.ibuf s.ibuf_next b,
                         is_index_loaded := true,
                         load_count := (d.actions.get ⟨_, hidx⟩).input_size,
                         ibuf_next := s.ibuf_next + 1 }
                = interpret_with_endianess d.e
                    (readBuf (storeByte s.ibuf s.ibuf_next b) 0 d.index_size) := rfl
            dsimp only
            rw [hdix]
            refine ⟨hidx, ?_, Nat.pos_of_ne_zero hz, by omega⟩
            rw [getD_map_input_size d.actions _ hidx]
            omega
        · rw [dif_neg hidx]
          dsimp only
          refine ⟨Nat.zero_le _, hon, hob, fun _ => ⟨Nat.add_zero _, hw1⟩,
            fun hcon => absurd hcon (by simp)⟩
      · rw [if_pos rfl]
        dsimp only
        refine ⟨Nat.zero_le _, hon, hob, fun _ => ⟨Nat.add_zero _, hw1⟩,
          fun hcon => absurd hcon (by simp)⟩

/-- A dispatcher with 300 copies of `addOneAction`: per the spec its
`index_t` is the two-byte `u16`. -/
def threeHundredDispatcher : DispatcherM :=
  ⟨.LITTLE, 2, List.replicate 300 addOneAction⟩

/-- Counterexample to claim C6 as stated: after the first `put` of a
two-byte-index dispatcher, the index is not loaded yet `load_count = 1`,
which differs from `sizeof(index_type) = 2`; the claimed Idle equation
`load_count = sizeof(index_type)` fails mid-index. -/
theorem C6_idle_load_count_counterexample :
    (BufState.put threeHundredDispatcher
      (BufState.init threeHundredDispatcher (fun _ => 0) (fun _ => 0)) 0).2.is_index_loaded
        = false ∧
    (BufState.put threeHundredDispatcher
      (BufState.init threeHundredDispatcher (fun _ => 0) (fun _ => 0)) 0).2.load_count
      ≠ threeHundredDispatcher.index_size := by
  exact ⟨by decide, by decide⟩

/-- Concrete instantiation of `C6_put_preserves_invariants`: the one-action
dispatcher satisfies `wf`, and the invariants hold for its initial state. -/
theorem C6_put_preserves_invariants_witness :
    addOneDispatcher.wf ∧
    BufInv addOneDispatcher 1 (BufState.init addOneDispatcher (fun _ => 0) (fun _ => 0)) :=
  ⟨⟨by decide, by decide, by decide⟩,
    (C6_put_preserves_invariants addOneDispatcher 1
      ⟨by decide, by decide, by decide⟩).1 (fun _ => 0) (fun _ => 0)⟩

end Unpadded
